import Mathlib

set_option maxRecDepth 100000

/-!
# Verification of the benchmarking core in `src/bench.cpp`

Shallow embedding of the adaptive benchmarking code (`percentile_of_sorted`,
`winsorize`, `Summary`, `Bencher`, the `auto_bench` convergence loop and the
`benchmark` throughput step) from `src/bench.cpp`.

Modelling conventions:
* `double` values are modelled as `ℚ` (exact real arithmetic); the literal
  `1.4826` becomes the rational `14826 / 10000`.
* The one place where IEEE-754 non-finiteness is observable to the claims is
  `median_abs_dev_pct = 100 * median_abs_dev / median`, which for a divisor of
  exactly `0` produces a non-finite double (NaN or an infinity).  That field is
  therefore modelled as `Option ℚ`, `none` standing for the non-finite result
  of dividing by zero, and the comparison `median_abs_dev_pct < 1.0` is
  modelled by `dblLt`, which is `false` on `none` (an IEEE comparison with NaN
  is false; the dividend `100 * median_abs_dev` is `0` in exact arithmetic for
  every sample set, because the code computes the median of the *signed*
  deviations `median - v`, so the zero-divisor case is always `0/0 = NaN`).
* `std::sort` on a vector of doubles is modelled by `List.insertionSort`:
  the ascending sorted permutation of a list of rationals is unique, so any
  correct sort is the same function.
* Wall-clock readings (`std::chrono::high_resolution_clock`) are oracle
  inputs: every measured elapsed time enters the model as an explicit
  nanosecond parameter, and the per-round sample vectors of `auto_bench`
  enter as explicit lists.
* The measured callable interacts with the harness only through the mutable
  byte counter of the `Bencher` it receives, so it is modelled by its effect
  `ℕ → ℕ` on that counter.
* `uint64_t` arithmetic is `ℕ` with an explicit `% 2 ^ 64` on the one
  multiplication that can overflow.
-/

/-- Ascending sort, modelling `std::sort(samples.begin(), samples.end())`.
(The sorted permutation of a list of rationals is unique, so insertion sort
computes the same list as any other correct sort.) -/
def cppSort (l : List ℚ) : List ℚ := l.insertionSort (· ≤ ·)

/-- Floor of a rational, `std::floor` on an exact value.  Computable version
of `Int.floor` (see `qfloor_eq_floor`). -/
def qfloor (q : ℚ) : ℤ := q.num / q.den

theorem qfloor_eq_floor (q : ℚ) : qfloor q = ⌊q⌋ := Rat.floor_def.symm

/-- `percentile_of_sorted` from `src/bench.cpp` (lines 11-34): value at the
`pct` percentile of an ascending-sorted sample list, by linear interpolation.
Out-of-range indexing (impossible under the function's preconditions) is
modelled by `List.getD` with default `0`. -/
def percentile_of_sorted (sorted_samples : List ℚ) (pct : ℚ) : ℚ :=
  if sorted_samples.length = 1 then
    sorted_samples.getD 0 0
  else if pct = 100 then
    sorted_samples.getD (sorted_samples.length - 1) 0
  else
    let length : ℚ := ((sorted_samples.length - 1 : ℕ) : ℚ)
    let rank : ℚ := (pct / 100) * length
    let lrank : ℤ := qfloor rank
    let d : ℚ := rank - (lrank : ℚ)
    let n : ℕ := lrank.toNat
    let lo : ℚ := sorted_samples.getD n 0
    let hi : ℚ := sorted_samples.getD (n + 1) 0
    lo + (hi - lo) * d

/-- The clamping step in the body of `winsorize`'s loop:
`if (samp > hi) samp = hi; else if (samp < lo) samp = lo;`. -/
def clampTo (lo hi samp : ℚ) : ℚ :=
  if samp > hi then hi else if samp < lo then lo else samp

/-- `winsorize` from `src/bench.cpp` (lines 42-58): sort ascending in place,
then clamp every value into `[percentile pct, percentile (100 - pct)]`.
The value of the mutated vector after the call is returned. -/
def winsorize (samples : List ℚ) (pct : ℚ) : List ℚ :=
  let sorted := cppSort samples
  let lo := percentile_of_sorted sorted pct
  let hi := percentile_of_sorted sorted (100 - pct)
  sorted.map (clampTo lo hi)

/-- `Summary<T>::calc_max` (`*std::max_element`), for a non-empty list. -/
def calc_max (samples : List ℚ) : ℚ := samples.foldl max (samples.getD 0 0)

/-- `Summary<T>::calc_min` (`*std::min_element`), for a non-empty list. -/
def calc_min (samples : List ℚ) : ℚ := samples.foldl min (samples.getD 0 0)

/-- `Summary<T>::calc_percentile`: copy, sort, take the percentile. -/
def calc_percentile (samples : List ℚ) (pct : ℚ) : ℚ :=
  percentile_of_sorted (cppSort samples) pct

/-- `Summary<T>::calc_median`: the 50th percentile. -/
def calc_median (samples : List ℚ) : ℚ := calc_percentile samples 50

/-- `Summary<T>::calc_median_abs_dev`: median of the *signed* deviations
`med - v`, scaled by the double literal `1.4826`. -/
def calc_median_abs_dev (samples : List ℚ) : ℚ :=
  calc_median (samples.map (fun v => calc_median samples - v)) * (14826 / 10000)

/-- IEEE double division as used for `median_abs_dev_pct`: a zero divisor
produces a non-finite double (NaN or an infinity), modelled as `none`. -/
def dblDiv (a b : ℚ) : Option ℚ := if b = 0 then none else some (a / b)

/-- IEEE `<` against a finite right operand: false when the left operand is
non-finite NaN (every IEEE comparison with NaN is false). -/
def dblLt (a : Option ℚ) (b : ℚ) : Bool :=
  match a with
  | none => false
  | some x => decide (x < b)

/-- The `Summary<T>` record of `src/bench.cpp` (lines 60-114). -/
structure Summary where
  max : ℚ
  min : ℚ
  median : ℚ
  median_abs_dev : ℚ
  median_abs_dev_pct : Option ℚ
deriving DecidableEq

/-- The `Summary(const std::vector<T> & samples)` constructor. -/
def Summary.ofSamples (samples : List ℚ) : Summary where
  max := calc_max samples
  min := calc_min samples
  median := calc_median samples
  median_abs_dev := calc_median_abs_dev samples
  median_abs_dev_pct := dblDiv (100 * calc_median_abs_dev samples) (calc_median samples)

/-- The mutable state of a `Bencher` (lines 117-146): iteration count,
elapsed duration in nanoseconds, and the byte counter the measured callable
may write. -/
structure Bencher where
  iterations : ℕ
  duration : ℕ
  bytes : ℕ
deriving DecidableEq

/-- A freshly constructed `Bencher`. -/
def Bencher.init : Bencher := ⟨0, 0, 0⟩

/-- `Bencher::ns_per_iter`: `duration / iterations`, guarded to `0` when
`iterations == 0`. -/
def Bencher.ns_per_iter (b : Bencher) : ℕ :=
  if b.iterations ≠ 0 then b.duration / b.iterations else 0

/-- The `for (uint64_t i = 0; i < iterations; ++i) func(*this);` loop of
`bench_n`.  Returns the byte counter after the loop together with the number
of invocations of `func` the loop performed. -/
def benchLoop (func : ℕ → ℕ) : ℕ → ℕ → ℕ × ℕ
  | 0, bytes => (bytes, 0)
  | Nat.succ i, bytes =>
    let r := benchLoop func i (func bytes)
    (r.1, r.2 + 1)

/-- `Bencher::bench_n` (lines 133-143): store the iteration count, reset the
duration, run the callable `iterations` times, then store the measured wall
time.  `elapsed` is the oracle wall-clock measurement of the whole loop; the
callable is modelled by its effect `func` on the byte counter.  Returns the
new state together with the number of invocations of the callable. -/
def Bencher.bench_n (b : Bencher) (iterations : ℕ) (func : ℕ → ℕ) (elapsed : ℕ) :
    Bencher × ℕ :=
  let r := benchLoop func iterations b.bytes
  ({ iterations := iterations, duration := elapsed, bytes := r.1 }, r.2)

/-- The convergence test of `auto_bench` (lines 198-203):
`loop_run > 100ms && summ.median_abs_dev_pct < 1.0 &&
 summ.median - summ5.median < summ5.median_abs_dev`.
Times are in nanoseconds. -/
def convergenceTest (loopRun : ℕ) (summ summ5 : Summary) : Bool :=
  decide (100000000 < loopRun) &&
    dblLt summ.median_abs_dev_pct 1 &&
    decide (summ.median - summ5.median < summ5.median_abs_dev)

/-- Oracle data for one iteration of the `auto_bench` loop: the 50
`ns_per_iter` readings collected at multiplier `n`, the 50 readings collected
at multiplier `5 * n`, and the iteration's wall time in nanoseconds. -/
structure IterData where
  samples : List ℚ
  samples5 : List ℚ
  loopRun : ℕ
deriving DecidableEq

/-- Outcome of one iteration of the `auto_bench` loop: either a terminal
state returning a summary, or the next iteration's multiplier and the
accumulated wall time. -/
inductive StepOutcome where
  | done (s : Summary)
  | next (n totalRun : ℕ)
deriving DecidableEq

/-- One iteration of the `for (;;)` loop of `auto_bench` (lines 172-215):
winsorize both rounds at 5%, summarize, return `summ5` if the convergence
test passes, otherwise accumulate the wall time, return `summ5` if the total
exceeds 3 s, otherwise double `n` and continue. -/
def autoBenchStep (n totalRun : ℕ) (d : IterData) : StepOutcome :=
  let summ := Summary.ofSamples (winsorize d.samples 5)
  let summ5 := Summary.ofSamples (winsorize d.samples5 5)
  if convergenceTest d.loopRun summ summ5 then
    StepOutcome.done summ5
  else
    let total := totalRun + d.loopRun
    if 3000000000 < total then
      StepOutcome.done summ5
    else
      StepOutcome.next (n * 2) total

/-- The `auto_bench` loop run over a list of per-iteration oracle data.
`none` means the oracle list was exhausted before the loop terminated. -/
def autoBenchLoop (n totalRun : ℕ) : List IterData → Option Summary
  | [] => none
  | d :: rest =>
    match autoBenchStep n totalRun d with
    | StepOutcome.done s => some s
    | StepOutcome.next n2 t2 => autoBenchLoop n2 t2 rest

/-- The `double → uint64_t` conversion in `benchmark` (truncation toward
zero; the claims only exercise it on non-negative in-range values). -/
def ratToU64 (q : ℚ) : ℕ := (qfloor q).toNat

/-- The throughput math of `benchmark` (lines 252-254):
`ns_iter = max<uint64_t>(median, 1)`, `iter_s = 1000000000 / ns_iter`,
`mb_s = (bytes * iter_s) / 1000000`, all in `uint64_t`; the multiplication
is the one operation that can wrap, hence the explicit `% 2 ^ 64`. -/
def benchmark_mb_s (summ : Summary) (bytes : ℕ) : ℕ :=
  let ns_iter : ℕ := Nat.max (ratToU64 summ.median) 1
  let iter_s : ℕ := 1000000000 / ns_iter
  bytes * iter_s % 2 ^ 64 / 1000000

/-- The spec's linear interpolation at a real-valued rank `r`:
`s[⌊r⌋] + (s[⌊r⌋ + 1] - s[⌊r⌋]) * (r - ⌊r⌋)`. -/
def interpAt (s : List ℚ) (r : ℚ) : ℚ :=
  s.getD (qfloor r).toNat 0 +
    (s.getD ((qfloor r).toNat + 1) 0 - s.getD (qfloor r).toNat 0) *
      (r - ((qfloor r : ℤ) : ℚ))

/-- The 100 samples `[1..100]` of the spec's winsorize test. -/
def sample100 : List ℚ := (List.range 100).map (fun i => ((i + 1 : ℕ) : ℚ))

/-! ## Helper lemmas about the embedded definitions -/

theorem percentile_len_one {s : List ℚ} (pct : ℚ) (h : s.length = 1) :
    percentile_of_sorted s pct = s.getD 0 0 := by
  rw [percentile_of_sorted, if_pos h]

theorem percentile_hundred {s : List ℚ} (h : s.length ≠ 1) :
    percentile_of_sorted s 100 = s.getD (s.length - 1) 0 := by
  rw [percentile_of_sorted, if_neg h, if_pos rfl]

theorem percentile_interp {s : List ℚ} {pct : ℚ} (h1 : s.length ≠ 1) (h2 : pct ≠ 100) :
    percentile_of_sorted s pct = interpAt s (pct / 100 * ((s.length - 1 : ℕ) : ℚ)) := by
  rw [percentile_of_sorted, if_neg h1, if_neg h2]
  rfl

theorem getD_map_lt (f : ℚ → ℚ) {l : List ℚ} {i : ℕ} (h : i < l.length) :
    (l.map f).getD i 0 = f (l.getD i 0) := by
  rw [List.getD_eq_getElem _ _ (by simpa using h), List.getD_eq_getElem _ _ h,
    List.getElem_map]

theorem getD_replicate {n i : ℕ} (v : ℚ) (h : i < n) :
    (List.replicate n v).getD i 0 = v := by
  rw [List.getD_eq_getElem _ _ (by simpa using h), List.getElem_replicate]

theorem sorted_getD_le {s : List ℚ} (hs : List.Sorted (· ≤ ·) s) {i j : ℕ}
    (hij : i ≤ j) (hj : j < s.length) : s.getD i 0 ≤ s.getD j 0 := by
  have hi : i < s.length := lt_of_le_of_lt hij hj
  rw [List.getD_eq_getElem _ _ hi, List.getD_eq_getElem _ _ hj]
  rcases eq_or_lt_of_le hij with rfl | hlt
  · exact le_refl _
  · exact List.pairwise_iff_getElem.mp hs i j hi hj hlt

theorem sorted_cppSort (l : List ℚ) : List.Sorted (· ≤ ·) (cppSort l) :=
  List.sorted_insertionSort (· ≤ ·) l

theorem length_cppSort (l : List ℚ) : (cppSort l).length = l.length :=
  List.length_insertionSort (· ≤ ·) l

theorem cppSort_eq_of_sorted {l : List ℚ} (h : List.Sorted (· ≤ ·) l) :
    cppSort l = l :=
  List.Sorted.insertionSort_eq h

theorem cppSort_const {l : List ℚ} {v : ℚ} (h : ∀ x ∈ l, x = v) :
    cppSort l = List.replicate l.length v := by
  have := List.eq_replicate_of_mem (a := v) (l := cppSort l)
    (fun b hb => h b ((List.mem_insertionSort (· ≤ ·)).mp hb))
  rwa [length_cppSort] at this

theorem qfloor_cast_le (r : ℚ) : ((qfloor r : ℤ) : ℚ) ≤ r := by
  rw [qfloor_eq_floor]; exact Int.floor_le r

theorem lt_qfloor_add_one (r : ℚ) : r < ((qfloor r : ℤ) : ℚ) + 1 := by
  rw [qfloor_eq_floor]; exact_mod_cast Int.lt_floor_add_one r

theorem qfloor_nonneg {r : ℚ} (h : 0 ≤ r) : 0 ≤ qfloor r := by
  rw [qfloor_eq_floor]; exact Int.floor_nonneg.mpr h

theorem qfloor_natCast (k : ℕ) : qfloor (k : ℚ) = (k : ℤ) := by
  rw [qfloor_eq_floor]; exact Int.floor_natCast k

theorem qfloor_toNat_cast {r : ℚ} (h : 0 ≤ r) :
    (((qfloor r).toNat : ℕ) : ℚ) = ((qfloor r : ℤ) : ℚ) := by
  have := Int.toNat_of_nonneg (qfloor_nonneg h)
  exact_mod_cast congrArg (fun z : ℤ => (z : ℚ)) this

theorem qfloor_toNat_lt {r : ℚ} {m : ℕ} (h0 : 0 ≤ r) (h : r < (m : ℚ)) :
    (qfloor r).toNat < m := by
  have h1 : qfloor r < (m : ℤ) := by
    rw [qfloor_eq_floor]; exact Int.floor_lt.mpr (by exact_mod_cast h)
  have h2 := qfloor_nonneg h0
  omega

theorem clampTo_le_clampTo {lo hi a b : ℚ} (h : lo ≤ hi) (hab : a ≤ b) :
    clampTo lo hi a ≤ clampTo lo hi b := by
  rw [clampTo, clampTo]
  split_ifs <;> linarith

theorem clampTo_mem {lo hi x : ℚ} (h : lo ≤ hi) :
    lo ≤ clampTo lo hi x ∧ clampTo lo hi x ≤ hi := by
  rw [clampTo]
  split_ifs <;> constructor <;> linarith

theorem clampTo_eq_self {lo hi x : ℚ} (h1 : lo ≤ x) (h2 : x ≤ hi) :
    clampTo lo hi x = x := by
  rw [clampTo]
  split_ifs <;> linarith

theorem benchLoop_eq (func : ℕ → ℕ) :
    ∀ (n bytes : ℕ), benchLoop func n bytes = (func^[n] bytes, n)
  | 0, bytes => rfl
  | Nat.succ i, bytes => by
    rw [benchLoop, benchLoop_eq func i (func bytes), Function.iterate_succ_apply]

theorem interpAt_natCast (s : List ℚ) (k : ℕ) : interpAt s (k : ℚ) = s.getD k 0 := by
  rw [interpAt, qfloor_natCast]
  simp

theorem interpAt_bounds {s : List ℚ} {r : ℚ} (hs : List.Sorted (· ≤ ·) s)
    (h0 : 0 ≤ r) (h1 : r < ((s.length - 1 : ℕ) : ℚ)) :
    s.getD 0 0 ≤ interpAt s r ∧ interpAt s r ≤ s.getD (s.length - 1) 0 := by
  have hnlt : (qfloor r).toNat < s.length - 1 := qfloor_toNat_lt h0 h1
  have hlen1 : 1 ≤ s.length := by omega
  have hn1lt : (qfloor r).toNat + 1 < s.length := by omega
  have hnlt' : (qfloor r).toNat < s.length := by omega
  have hd0 : 0 ≤ r - ((qfloor r : ℤ) : ℚ) := by
    have := qfloor_cast_le r; linarith
  have hd1 : r - ((qfloor r : ℤ) : ℚ) ≤ 1 := by
    have := lt_qfloor_add_one r; linarith
  have hgap : s.getD (qfloor r).toNat 0 ≤ s.getD ((qfloor r).toNat + 1) 0 :=
    sorted_getD_le hs (Nat.le_succ _) hn1lt
  constructor
  · have hlow : s.getD 0 0 ≤ s.getD (qfloor r).toNat 0 :=
      sorted_getD_le hs (Nat.zero_le _) hnlt'
    have hprod : 0 ≤ (s.getD ((qfloor r).toNat + 1) 0 - s.getD (qfloor r).toNat 0) *
        (r - ((qfloor r : ℤ) : ℚ)) := mul_nonneg (by linarith) hd0
    rw [interpAt]; linarith
  · have hhigh : s.getD ((qfloor r).toNat + 1) 0 ≤ s.getD (s.length - 1) 0 :=
      sorted_getD_le hs (by omega) (by omega)
    have hprod : (s.getD ((qfloor r).toNat + 1) 0 - s.getD (qfloor r).toNat 0) *
        (r - ((qfloor r : ℤ) : ℚ)) ≤
        (s.getD ((qfloor r).toNat + 1) 0 - s.getD (qfloor r).toNat 0) * 1 :=
      mul_le_mul_of_nonneg_left hd1 (by linarith)
    rw [interpAt]; linarith

theorem interpAt_mono {s : List ℚ} {r1 r2 : ℚ} (hs : List.Sorted (· ≤ ·) s)
    (h0 : 0 ≤ r1) (h12 : r1 ≤ r2) (h2 : r2 < ((s.length - 1 : ℕ) : ℚ)) :
    interpAt s r1 ≤ interpAt s r2 := by
  have h02 : 0 ≤ r2 := le_trans h0 h12
  have hf1 : (0 : ℤ) ≤ qfloor r1 := qfloor_nonneg h0
  have hf2 : (0 : ℤ) ≤ qfloor r2 := qfloor_nonneg h02
  have hff : qfloor r1 ≤ qfloor r2 := by
    rw [qfloor_eq_floor, qfloor_eq_floor]; exact Int.floor_le_floor h12
  have hn2lt : (qfloor r2).toNat < s.length - 1 := qfloor_toNat_lt h02 h2
  have hn12 : (qfloor r1).toNat ≤ (qfloor r2).toNat := by omega
  have hd10 : 0 ≤ r1 - ((qfloor r1 : ℤ) : ℚ) := by
    have := qfloor_cast_le r1; linarith
  have hd11 : r1 - ((qfloor r1 : ℤ) : ℚ) ≤ 1 := by
    have := lt_qfloor_add_one r1; linarith
  have hd20 : 0 ≤ r2 - ((qfloor r2 : ℤ) : ℚ) := by
    have := qfloor_cast_le r2; linarith
  rcases eq_or_lt_of_le hn12 with heq | hlt
  · have hfeq : qfloor r1 = qfloor r2 := by omega
    rw [interpAt, interpAt, ← heq, ← hfeq]
    have hgap : s.getD (qfloor r1).toNat 0 ≤ s.getD ((qfloor r1).toNat + 1) 0 :=
      sorted_getD_le hs (Nat.le_succ _) (by omega)
    have := mul_le_mul_of_nonneg_left
      (sub_le_sub_right h12 ((qfloor r1 : ℤ) : ℚ))
      (show (0:ℚ) ≤ s.getD ((qfloor r1).toNat + 1) 0 - s.getD (qfloor r1).toNat 0 by linarith)
    linarith
  · have hgap1 : s.getD (qfloor r1).toNat 0 ≤ s.getD ((qfloor r1).toNat + 1) 0 :=
      sorted_getD_le hs (Nat.le_succ _) (by omega)
    have hgap2 : s.getD (qfloor r2).toNat 0 ≤ s.getD ((qfloor r2).toNat + 1) 0 :=
      sorted_getD_le hs (Nat.le_succ _) (by omega)
    have hmid : s.getD ((qfloor r1).toNat + 1) 0 ≤ s.getD (qfloor r2).toNat 0 :=
      sorted_getD_le hs hlt (by omega)
    have hup : (s.getD ((qfloor r1).toNat + 1) 0 - s.getD (qfloor r1).toNat 0) *
        (r1 - ((qfloor r1 : ℤ) : ℚ)) ≤
        (s.getD ((qfloor r1).toNat + 1) 0 - s.getD (qfloor r1).toNat 0) * 1 :=
      mul_le_mul_of_nonneg_left hd11 (by linarith)
    have hdown : 0 ≤ (s.getD ((qfloor r2).toNat + 1) 0 - s.getD (qfloor r2).toNat 0) *
        (r2 - ((qfloor r2 : ℤ) : ℚ)) := mul_nonneg (by linarith) hd20
    rw [interpAt, interpAt]
    linarith

theorem percentile_le_percentile {s : List ℚ} {p q : ℚ} (hs : List.Sorted (· ≤ ·) s)
    (hne : s ≠ []) (h0 : 0 ≤ p) (hpq : p ≤ q) (h100 : q ≤ 100) :
    percentile_of_sorted s p ≤ percentile_of_sorted s q := by
  have hq0 : 0 ≤ q := le_trans h0 hpq
  have hp100 : p ≤ 100 := le_trans hpq h100
  have hlen0 : s.length ≠ 0 := fun hz => hne (List.length_eq_zero.mp hz)
  by_cases h1 : s.length = 1
  · rw [percentile_len_one p h1, percentile_len_one q h1]
  · have hL1pos : (0 : ℚ) < ((s.length - 1 : ℕ) : ℚ) := by
      have : 0 < s.length - 1 := by omega
      exact_mod_cast this
    by_cases hq : q = 100
    · subst hq
      rw [percentile_hundred h1]
      by_cases hp : p = 100
      · subst hp; rw [percentile_hundred h1]
      · rw [percentile_interp h1 hp]
        have hplt : p < 100 := lt_of_le_of_ne hp100 hp
        have hr0 : 0 ≤ p / 100 * ((s.length - 1 : ℕ) : ℚ) :=
          mul_nonneg (by positivity) (le_of_lt hL1pos)
        have hr1 : p / 100 * ((s.length - 1 : ℕ) : ℚ) < ((s.length - 1 : ℕ) : ℚ) := by
          have hfrac : p / 100 < 1 := by linarith
          nlinarith
        exact (interpAt_bounds hs hr0 hr1).2
    · have hqlt : q < 100 := lt_of_le_of_ne h100 hq
      have hp : p ≠ 100 := by intro h; rw [h] at hpq; linarith
      rw [percentile_interp h1 hp, percentile_interp h1 hq]
      have hr0 : 0 ≤ p / 100 * ((s.length - 1 : ℕ) : ℚ) :=
        mul_nonneg (by positivity) (le_of_lt hL1pos)
      have hr12 : p / 100 * ((s.length - 1 : ℕ) : ℚ) ≤ q / 100 * ((s.length - 1 : ℕ) : ℚ) := by
        have : p / 100 ≤ q / 100 := by linarith
        nlinarith
      have hr2 : q / 100 * ((s.length - 1 : ℕ) : ℚ) < ((s.length - 1 : ℕ) : ℚ) := by
        have hfrac : q / 100 < 1 := by linarith
        nlinarith
      exact interpAt_mono hs hr0 hr12 hr2

theorem percentile_between {s : List ℚ} {p : ℚ} (hs : List.Sorted (· ≤ ·) s)
    (hne : s ≠ []) (h0 : 0 ≤ p) (h100 : p ≤ 100) :
    s.getD 0 0 ≤ percentile_of_sorted s p ∧
      percentile_of_sorted s p ≤ s.getD (s.length - 1) 0 := by
  have hlen0 : s.length ≠ 0 := fun hz => hne (List.length_eq_zero.mp hz)
  by_cases h1 : s.length = 1
  · rw [percentile_len_one p h1, h1]
    exact ⟨le_refl _, le_refl _⟩
  · by_cases hp : p = 100
    · subst hp
      rw [percentile_hundred h1]
      exact ⟨sorted_getD_le hs (Nat.zero_le _) (by omega), le_refl _⟩
    · rw [percentile_interp h1 hp]
      have hL1pos : (0 : ℚ) < ((s.length - 1 : ℕ) : ℚ) := by
        have : 0 < s.length - 1 := by omega
        exact_mod_cast this
      have hplt : p < 100 := lt_of_le_of_ne h100 hp
      have hr0 : 0 ≤ p / 100 * ((s.length - 1 : ℕ) : ℚ) :=
        mul_nonneg (by positivity) (le_of_lt hL1pos)
      have hr1 : p / 100 * ((s.length - 1 : ℕ) : ℚ) < ((s.length - 1 : ℕ) : ℚ) := by
        have hfrac : p / 100 < 1 := by linarith
        nlinarith
      exact interpAt_bounds hs hr0 hr1

theorem percentile_intRank {s : List ℚ} {pct : ℚ} {k : ℕ} (hne : s ≠ [])
    (h0 : 0 ≤ pct) (h100 : pct ≤ 100)
    (hk : pct / 100 * ((s.length - 1 : ℕ) : ℚ) = (k : ℚ)) :
    percentile_of_sorted s pct = s.getD k 0 := by
  by_cases h1 : s.length = 1
  · rw [percentile_len_one pct h1]
    have hz : ((s.length - 1 : ℕ) : ℚ) = 0 := by rw [h1]; norm_num
    rw [hz, mul_zero] at hk
    have : k = 0 := by exact_mod_cast hk.symm
    rw [this]
  · by_cases hp : pct = 100
    · subst hp
      rw [percentile_hundred h1]
      rw [show (100 : ℚ) / 100 = 1 by norm_num, one_mul] at hk
      have : s.length - 1 = k := by exact_mod_cast hk
      rw [this]
    · rw [percentile_interp h1 hp, hk, interpAt_natCast]

theorem percentile_replicate {n : ℕ} (hn : n ≠ 0) (v pct : ℚ)
    (h0 : 0 ≤ pct) (h100 : pct ≤ 100) :
    percentile_of_sorted (List.replicate n v) pct = v := by
  have hlen : (List.replicate n v).length = n := List.length_replicate n v
  by_cases h1 : (List.replicate n v).length = 1
  · rw [percentile_len_one pct h1, getD_replicate v (by omega)]
  · have hL2 : 2 ≤ n := by rw [hlen] at h1; omega
    by_cases hp : pct = 100
    · subst hp
      rw [percentile_hundred h1, hlen, getD_replicate v (by omega)]
    · rw [percentile_interp h1 hp, hlen]
      have hL1pos : (0 : ℚ) < ((n - 1 : ℕ) : ℚ) := by
        have : 0 < n - 1 := by omega
        exact_mod_cast this
      have hr0 : 0 ≤ pct / 100 * ((n - 1 : ℕ) : ℚ) :=
        mul_nonneg (by positivity) (le_of_lt hL1pos)
      have hr1 : pct / 100 * ((n - 1 : ℕ) : ℚ) < ((n - 1 : ℕ) : ℚ) := by
        have hplt : pct < 100 := lt_of_le_of_ne h100 hp
        have hfrac : pct / 100 < 1 := by linarith
        nlinarith
      have hidx : (qfloor (pct / 100 * ((n - 1 : ℕ) : ℚ))).toNat < n - 1 :=
        qfloor_toNat_lt hr0 hr1
      rw [interpAt, getD_replicate v (by omega), getD_replicate v (by omega)]
      ring

theorem foldl_max_const : ∀ (l : List ℚ) (a : ℚ), (∀ x ∈ l, x = a) → l.foldl max a = a
  | [], _, _ => rfl
  | x :: l, a, h => by
    have hx : x = a := h x (List.mem_cons_self x l)
    have ht : ∀ y ∈ l, y = a := fun y hy => h y (List.mem_cons_of_mem x hy)
    rw [List.foldl_cons, hx, max_self, foldl_max_const l a ht]

theorem foldl_min_const : ∀ (l : List ℚ) (a : ℚ), (∀ x ∈ l, x = a) → l.foldl min a = a
  | [], _, _ => rfl
  | x :: l, a, h => by
    have hx : x = a := h x (List.mem_cons_self x l)
    have ht : ∀ y ∈ l, y = a := fun y hy => h y (List.mem_cons_of_mem x hy)
    rw [List.foldl_cons, hx, min_self, foldl_min_const l a ht]

theorem getD_zero_const {l : List ℚ} {v : ℚ} (hne : l ≠ []) (h : ∀ x ∈ l, x = v) :
    l.getD 0 0 = v := by
  cases l with
  | nil => exact absurd rfl hne
  | cons w t => exact h w (List.mem_cons_self w t)

theorem calc_max_const {l : List ℚ} {v : ℚ} (hne : l ≠ []) (h : ∀ x ∈ l, x = v) :
    calc_max l = v := by
  rw [calc_max, getD_zero_const hne h]
  exact foldl_max_const l v h

theorem calc_min_const {l : List ℚ} {v : ℚ} (hne : l ≠ []) (h : ∀ x ∈ l, x = v) :
    calc_min l = v := by
  rw [calc_min, getD_zero_const hne h]
  exact foldl_min_const l v h

theorem calc_median_const {l : List ℚ} {v : ℚ} (hne : l ≠ []) (h : ∀ x ∈ l, x = v) :
    calc_median l = v := by
  rw [calc_median, calc_percentile, cppSort_const h]
  exact percentile_replicate (fun hz => hne (List.length_eq_zero.mp hz)) v 50
    (by norm_num) (by norm_num)

theorem calc_mad_const {l : List ℚ} {v : ℚ} (hne : l ≠ []) (h : ∀ x ∈ l, x = v) :
    calc_median_abs_dev l = 0 := by
  rw [calc_median_abs_dev]
  have hdev : ∀ y ∈ l.map (fun x => calc_median l - x), y = 0 := by
    intro y hy
    obtain ⟨x, hx, rfl⟩ := List.mem_map.mp hy
    rw [calc_median_const hne h, h x hx, sub_self]
  have hne2 : l.map (fun x => calc_median l - x) ≠ [] := by
    simpa using hne
  rw [calc_median_const hne2 hdev, zero_mul]

/-! ## Claim theorems -/

/-- C5: `percentile_of_sorted` returns the single element of a one-element
input for any `pct`, returns the last element at `pct = 100`, and otherwise
linearly interpolates at rank `(pct/100) * (len-1)`; on `[1,2,3,4,5]` it
returns `3` at pct `50`, `1` at pct `0`, `5` at pct `100` and `2` at pct
`25`. -/
theorem percentile_spec_points :
    (∀ v pct : ℚ, percentile_of_sorted [v] pct = v) ∧
    (∀ s : List ℚ, s ≠ [] →
      percentile_of_sorted s 100 = s.getD (s.length - 1) 0) ∧
    (∀ (s : List ℚ) (pct : ℚ), s.length ≠ 1 → pct ≠ 100 →
      percentile_of_sorted s pct = interpAt s (pct / 100 * ((s.length - 1 : ℕ) : ℚ))) ∧
    percentile_of_sorted [1, 2, 3, 4, 5] 50 = 3 ∧
    percentile_of_sorted [1, 2, 3, 4, 5] 0 = 1 ∧
    percentile_of_sorted [1, 2, 3, 4, 5] 100 = 5 ∧
    percentile_of_sorted [1, 2, 3, 4, 5] 25 = 2 := by
  refine ⟨fun v pct => percentile_len_one pct rfl, fun s hs => ?_,
    fun s pct h1 h2 => percentile_interp h1 h2, ?_, ?_, ?_, ?_⟩
  · by_cases h1 : s.length = 1
    · rw [percentile_len_one 100 h1, h1]
    · exact percentile_hundred h1
  all_goals with_unfolding_all decide

/-- C5 witness: the hypothesis-bearing conjuncts applied at concrete
inputs. -/
theorem percentile_spec_points_witness :
    percentile_of_sorted [(3 : ℚ), 7] 100 = 7 ∧
    percentile_of_sorted [(1 : ℚ), 2] 50 =
      interpAt [(1 : ℚ), 2] (50 / 100 * ((List.length [(1 : ℚ), 2] - 1 : ℕ) : ℚ)) := by
  constructor
  · rw [percentile_spec_points.2.1 [(3 : ℚ), 7] (by decide)]
    rfl
  · exact percentile_spec_points.2.2.1 [(1 : ℚ), 2] 50 (by decide) (by norm_num)

/-- C6: `winsorize` keeps the sample count, and its result is, entry by
entry, the clamp of the sorted input into `[lo, hi]` where `lo`/`hi` are the
`pct`/`100-pct` percentiles of the sorted input (values above `hi` become
`hi`, below `lo` become `lo`, others unchanged); on `[1..100]` at pct `5`
the values below `6` become the 5th-percentile value `5.95`, the values
above `95` become the 95th-percentile value `95.05`, values in `[6, 95]`
are unchanged, and the result still has `100` elements. -/
theorem winsorize_clamp_spec :
    (∀ (s : List ℚ) (pct : ℚ), (winsorize s pct).length = s.length) ∧
    (∀ (s : List ℚ) (pct : ℚ), 0 ≤ pct → pct ≤ 50 → ∀ i, i < s.length →
      (winsorize s pct).getD i 0 =
        clampTo (percentile_of_sorted (cppSort s) pct)
          (percentile_of_sorted (cppSort s) (100 - pct)) ((cppSort s).getD i 0)) ∧
    percentile_of_sorted (cppSort sample100) 5 = 119 / 20 ∧
    percentile_of_sorted (cppSort sample100) 95 = 1901 / 20 ∧
    winsorize sample100 5 =
      sample100.map (fun x => if x < 6 then 119 / 20 else if x > 95 then 1901 / 20 else x) ∧
    (winsorize sample100 5).length = 100 := by
  refine ⟨fun s pct => ?_, fun s pct _ _ i hi => ?_, ?_, ?_, ?_, ?_⟩
  · show ((cppSort s).map _).length = s.length
    rw [List.length_map, length_cppSort]
  · exact getD_map_lt _ (by rw [length_cppSort]; exact hi)
  all_goals with_unfolding_all decide

/-- C6 witness: the hypothesis-bearing conjunct applied at a concrete
input. -/
theorem winsorize_clamp_spec_witness :
    (winsorize [(3 : ℚ), 1] 10).getD 0 0 =
      clampTo (percentile_of_sorted (cppSort [(3 : ℚ), 1]) 10)
        (percentile_of_sorted (cppSort [(3 : ℚ), 1]) (100 - 10))
        ((cppSort [(3 : ℚ), 1]).getD 0 0) :=
  winsorize_clamp_spec.2.1 [(3 : ℚ), 1] 10 (by norm_num) (by norm_num) 0 (by decide)

/-- C7: a zero-iteration batch never invokes the callable and afterwards
`ns_per_iter` is exactly `0`; in general `ns_per_iter` is
`duration / iterations` when the iteration count is nonzero and `0` when it
is zero. -/
theorem bench_n_zero_guard :
    (∀ (b : Bencher) (func : ℕ → ℕ) (elapsed : ℕ),
      (b.bench_n 0 func elapsed).2 = 0 ∧
      (b.bench_n 0 func elapsed).1.ns_per_iter = 0) ∧
    (∀ b : Bencher, b.iterations ≠ 0 → b.ns_per_iter = b.duration / b.iterations) ∧
    (∀ b : Bencher, b.iterations = 0 → b.ns_per_iter = 0) := by
  refine ⟨fun b func elapsed => ⟨rfl, rfl⟩, fun b hb => ?_, fun b hb => ?_⟩
  · rw [Bencher.ns_per_iter, if_pos hb]
  · rw [Bencher.ns_per_iter, if_neg (by simpa using hb)]

/-- C7 witness: the hypothesis-bearing conjuncts applied at concrete
states. -/
theorem bench_n_zero_guard_witness :
    (Bencher.mk 3 12 0).ns_per_iter = 4 ∧ (Bencher.mk 0 12 0).ns_per_iter = 0 := by
  constructor
  · rw [bench_n_zero_guard.2.1 (Bencher.mk 3 12 0) (by decide)]
    decide
  · exact bench_n_zero_guard.2.2 (Bencher.mk 0 12 0) rfl

/-- C9: `bench_n` overwrites the iteration count and the duration regardless
of their previous values (the result depends on the incoming state only
through its byte counter), changes the byte counter exactly by the
callable's own writes, and the byte counter persists across successive
batches. -/
theorem bench_n_frame :
    (∀ (b : Bencher) (iterations elapsed : ℕ) (func : ℕ → ℕ),
      (b.bench_n iterations func elapsed).1.iterations = iterations ∧
      (b.bench_n iterations func elapsed).1.duration = elapsed ∧
      (b.bench_n iterations func elapsed).1.bytes = func^[iterations] b.bytes ∧
      (b.bench_n iterations func elapsed).2 = iterations) ∧
    (∀ (b b2 : Bencher) (iterations elapsed : ℕ) (func : ℕ → ℕ),
      b.bytes = b2.bytes →
      b.bench_n iterations func elapsed = b2.bench_n iterations func elapsed) ∧
    (∀ (b : Bencher) (i1 e1 i2 e2 : ℕ) (f1 f2 : ℕ → ℕ),
      (((b.bench_n i1 f1 e1).1).bench_n i2 f2 e2).1.bytes =
        f2^[i2] (f1^[i1] b.bytes)) := by
  refine ⟨fun b iterations elapsed func => ?_, fun b b2 iterations elapsed func hb => ?_,
    fun b i1 e1 i2 e2 f1 f2 => ?_⟩
  · rw [Bencher.bench_n, benchLoop_eq]
    exact ⟨rfl, rfl, rfl, rfl⟩
  · rw [Bencher.bench_n, Bencher.bench_n, hb]
  · simp [Bencher.bench_n, benchLoop_eq]

/-- C9 witness: the hypothesis-bearing conjunct applied at concrete
states. -/
theorem bench_n_frame_witness :
    (Bencher.mk 1 2 9).bench_n 4 (fun x => x + 1) 77 =
      (Bencher.mk 5 6 9).bench_n 4 (fun x => x + 1) 77 :=
  bench_n_frame.2.1 (Bencher.mk 1 2 9) (Bencher.mk 5 6 9) 4 77 (fun x => x + 1) rfl

/-- C8: in any iteration of the `auto_bench` loop, once the accumulated wall
time of the loop iterations exceeds 3 s the loop is terminal and returns
`summ5` (the summary of the winsorized multiplier-`5n` round), regardless of
the convergence test and of any remaining oracle data. -/
theorem auto_bench_budget_escape :
    ∀ (n totalRun : ℕ) (d : IterData) (rest : List IterData),
      3000000000 < totalRun + d.loopRun →
      autoBenchLoop n totalRun (d :: rest) =
        some (Summary.ofSamples (winsorize d.samples5 5)) := by
  intro n totalRun d rest hbudget
  have hstep : autoBenchStep n totalRun d =
      StepOutcome.done (Summary.ofSamples (winsorize d.samples5 5)) := by
    rw [autoBenchStep]
    cases hc : convergenceTest d.loopRun (Summary.ofSamples (winsorize d.samples 5))
        (Summary.ofSamples (winsorize d.samples5 5))
    · simp only [hc, Bool.false_eq_true, if_false]
      rw [if_pos hbudget]
    · simp only [hc, if_true]
  rw [autoBenchLoop, hstep]

/-- C8 witness: the theorem applied at a concrete over-budget iteration. -/
theorem auto_bench_budget_escape_witness :
    autoBenchLoop 1 4000000000 [IterData.mk [1] [2] 0] =
      some (Summary.ofSamples (winsorize [2] 5)) :=
  auto_bench_budget_escape 1 4000000000 (IterData.mk [1] [2] 0) [] (by norm_num)

/-- C4: the orchestrator's throughput step computes
`ns_iter = max(median, 1)`, `iter_s = 1e9 / ns_iter` and
`mb_s = bytes * iter_s / 1e6` in `uint64_t` arithmetic (so with truncating
division, and exactly this value whenever the product does not wrap), and
on a synthetic summary with `median = 1000` and a reported byte count of
`2000` the throughput is exactly `2000`. -/
theorem benchmark_throughput_math :
    (∀ (summ : Summary) (bytes : ℕ),
      bytes * (1000000000 / Nat.max (ratToU64 summ.median) 1) < 2 ^ 64 →
      benchmark_mb_s summ bytes =
        bytes * (1000000000 / Nat.max (ratToU64 summ.median) 1) / 1000000) ∧
    (∀ summ : Summary, summ.median = 1000 → benchmark_mb_s summ 2000 = 2000) := by
  constructor
  · intro summ bytes h
    rw [benchmark_mb_s]
    rw [Nat.mod_eq_of_lt h]
  · intro summ hmed
    rw [benchmark_mb_s, hmed]
    with_unfolding_all decide

/-- C4 witness: the theorem applied to a concrete synthetic summary. -/
theorem benchmark_throughput_math_witness :
    benchmark_mb_s (Summary.mk 1000 900 1000 0 (some 0)) 2000 = 2000 :=
  benchmark_throughput_math.2 (Summary.mk 1000 900 1000 0 (some 0)) rfl

/-- C1 counterexample: the code's convergence test fires at a concrete pair
of summaries for which the claimed condition with the *absolute* difference
`|summ.median - summ5.median| < summ5.median_abs_dev` is false (the code
compares the signed difference, which here is negative). -/
theorem convergence_abs_claim_cex :
    convergenceTest 200000000 (Summary.ofSamples [100, 100])
        (Summary.ofSamples [200, 200]) = true ∧
    ¬((100000000 : ℕ) < 200000000 ∧
      dblLt (Summary.ofSamples [(100 : ℚ), 100]).median_abs_dev_pct 1 = true ∧
      |(Summary.ofSamples [(100 : ℚ), 100]).median -
          (Summary.ofSamples [(200 : ℚ), 200]).median| <
        (Summary.ofSamples [(200 : ℚ), 200]).median_abs_dev) := by
  with_unfolding_all decide

/-- C1 (amended): below the 3 s budget, an iteration of the `auto_bench`
loop is terminal with result `summ5` exactly when the iteration's wall time
exceeds 100 ms, `summ.median_abs_dev_pct < 1.0`, and the *signed* difference
`summ.median - summ5.median` is strictly less than `summ5.median_abs_dev`
(the code does not take an absolute value). -/
theorem convergence_test_signed :
    ∀ (n totalRun : ℕ) (d : IterData), totalRun + d.loopRun ≤ 3000000000 →
      (autoBenchStep n totalRun d =
          StepOutcome.done (Summary.ofSamples (winsorize d.samples5 5)) ↔
        (100000000 < d.loopRun ∧
          dblLt (Summary.ofSamples (winsorize d.samples 5)).median_abs_dev_pct 1 = true ∧
          (Summary.ofSamples (winsorize d.samples 5)).median -
              (Summary.ofSamples (winsorize d.samples5 5)).median <
            (Summary.ofSamples (winsorize d.samples5 5)).median_abs_dev)) := by
  intro n totalRun d hbudget
  have hiff : convergenceTest d.loopRun (Summary.ofSamples (winsorize d.samples 5))
      (Summary.ofSamples (winsorize d.samples5 5)) = true ↔
      (100000000 < d.loopRun ∧
        dblLt (Summary.ofSamples (winsorize d.samples 5)).median_abs_dev_pct 1 = true ∧
        (Summary.ofSamples (winsorize d.samples 5)).median -
            (Summary.ofSamples (winsorize d.samples5 5)).median <
          (Summary.ofSamples (winsorize d.samples5 5)).median_abs_dev) := by
    rw [convergenceTest]
    simp only [Bool.and_eq_true, decide_eq_true_eq]
    tauto
  rw [autoBenchStep]
  cases hc : convergenceTest d.loopRun (Summary.ofSamples (winsorize d.samples 5))
      (Summary.ofSamples (winsorize d.samples5 5))
  · simp only [hc, Bool.false_eq_true, if_false]
    rw [if_neg (by omega)]
    constructor
    · intro h
      exact StepOutcome.noConfusion h
    · intro h
      exact absurd (hiff.mpr h) (by rw [hc]; exact Bool.false_ne_true)
  · simp only [hc, if_true]
    constructor
    · intro _
      exact hiff.mp hc
    · intro _
      first
      | rfl
      | trivial

/-- C1 witness: the amended criterion applied at a concrete iteration on
which the test fires. -/
theorem convergence_test_signed_witness :
    autoBenchStep 1 0 (IterData.mk [100, 100] [200, 200] 200000000) =
      StepOutcome.done (Summary.ofSamples (winsorize [200, 200] 5)) :=
  (convergence_test_signed 1 0 (IterData.mk [100, 100] [200, 200] 200000000)
      (by norm_num)).mpr
    (by refine ⟨by norm_num, ?_, ?_⟩ <;> with_unfolding_all decide)

/-- C10: on a sorted non-empty sample list, `percentile_of_sorted` is
monotone in the percentile argument, every result lies between the first
and the last element, and consequently the winsorize bounds satisfy
`lo ≤ hi` for `pct ≤ 50`. -/
theorem percentile_monotone_bounds :
    (∀ (s : List ℚ) (p q : ℚ), List.Sorted (· ≤ ·) s → s ≠ [] →
      0 ≤ p → p ≤ q → q ≤ 100 →
      percentile_of_sorted s p ≤ percentile_of_sorted s q) ∧
    (∀ (s : List ℚ) (p : ℚ), List.Sorted (· ≤ ·) s → s ≠ [] → 0 ≤ p → p ≤ 100 →
      s.getD 0 0 ≤ percentile_of_sorted s p ∧
        percentile_of_sorted s p ≤ s.getD (s.length - 1) 0) ∧
    (∀ (s : List ℚ) (pct : ℚ), s ≠ [] → 0 ≤ pct → pct ≤ 50 →
      percentile_of_sorted (cppSort s) pct ≤
        percentile_of_sorted (cppSort s) (100 - pct)) := by
  refine ⟨fun s p q hs hne h0 hpq h100 => percentile_le_percentile hs hne h0 hpq h100,
    fun s p hs hne h0 h100 => percentile_between hs hne h0 h100,
    fun s pct hne h0 h50 => ?_⟩
  have hne2 : cppSort s ≠ [] := by
    intro hz
    apply hne
    have := length_cppSort s
    rw [hz] at this
    exact List.length_eq_zero.mp this.symm
  exact percentile_le_percentile (sorted_cppSort s) hne2 h0 (by linarith) (by linarith)

/-- C10 witness: monotonicity and the bound applied at concrete inputs. -/
theorem percentile_monotone_bounds_witness :
    percentile_of_sorted [(1 : ℚ), 2] 0 ≤ percentile_of_sorted [(1 : ℚ), 2] 50 ∧
    percentile_of_sorted (cppSort [(3 : ℚ), 1]) 5 ≤
      percentile_of_sorted (cppSort [(3 : ℚ), 1]) (100 - 5) :=
  ⟨percentile_monotone_bounds.1 [(1 : ℚ), 2] 0 50 (by decide) (by decide)
      le_rfl (by norm_num) (by norm_num),
    percentile_monotone_bounds.2.2 [(3 : ℚ), 1] 5 (by decide) (by norm_num) (by norm_num)⟩

/-- C3 counterexample: for the constant all-zero sample set, the code's
`median_abs_dev_pct = 100 * 0 / 0` is the non-finite IEEE result `0/0`
(NaN), not the finite value `0`, so the claim's unconditional
`median_abs_dev_pct == 0` fails at `v = 0`. -/
theorem summary_zero_const_pct_cex :
    (Summary.ofSamples [(0 : ℚ), 0]).median = 0 ∧
    (Summary.ofSamples [(0 : ℚ), 0]).median_abs_dev = 0 ∧
    (Summary.ofSamples [(0 : ℚ), 0]).median_abs_dev_pct = none ∧
    (Summary.ofSamples [(0 : ℚ), 0]).median_abs_dev_pct ≠ some 0 := by
  with_unfolding_all decide

/-- C3 (amended): a single-element sample set has
`max = min = median = that element` and `median_abs_dev = 0`; a constant
sample set with value `v` has `median = v` and `median_abs_dev = 0`, and
`median_abs_dev_pct = 0` provided `v ≠ 0` (at `v = 0` the division `0/0`
yields no finite value). -/
theorem summary_singleton_const :
    (∀ v : ℚ, (Summary.ofSamples [v]).max = v ∧ (Summary.ofSamples [v]).min = v ∧
      (Summary.ofSamples [v]).median = v ∧
      (Summary.ofSamples [v]).median_abs_dev = 0) ∧
    (∀ (l : List ℚ) (v : ℚ), l ≠ [] → (∀ x ∈ l, x = v) →
      (Summary.ofSamples l).median = v ∧
      (Summary.ofSamples l).median_abs_dev = 0 ∧
      (v ≠ 0 → (Summary.ofSamples l).median_abs_dev_pct = some 0)) := by
  constructor
  · intro v
    have hne : ([v] : List ℚ) ≠ [] := by simp
    have h : ∀ x ∈ ([v] : List ℚ), x = v := by simp
    exact ⟨calc_max_const hne h, calc_min_const hne h, calc_median_const hne h,
      calc_mad_const hne h⟩
  · intro l v hne h
    refine ⟨calc_median_const hne h, calc_mad_const hne h, fun hv => ?_⟩
    show dblDiv (100 * calc_median_abs_dev l) (calc_median l) = some 0
    rw [calc_mad_const hne h, calc_median_const hne h, mul_zero, dblDiv, if_neg hv,
      zero_div]

/-- C3 witness: the constant-set conjunct applied at a concrete nonzero
constant set. -/
theorem summary_singleton_const_witness :
    (Summary.ofSamples [(3 : ℚ), 3]).median = 3 ∧
    (Summary.ofSamples [(3 : ℚ), 3]).median_abs_dev = 0 ∧
    (Summary.ofSamples [(3 : ℚ), 3]).median_abs_dev_pct = some 0 := by
  have h := summary_singleton_const.2 [(3 : ℚ), 3] 3 (by decide) (by decide)
  exact ⟨h.1, h.2.1, h.2.2 (by norm_num)⟩

/-- C2 counterexample: `winsorize` is not idempotent.  Re-winsorizing the
already-winsorized `[0, 100]` at pct `5` changes the values again: the first
pass clamps to `[5, 95]`, the second pass interpolates new bounds
`[9.5, 90.5]` strictly inside the old ones. -/
theorem winsorize_twice_ne_cex :
    winsorize (winsorize [0, 100] 5) 5 ≠ winsorize [0, 100] 5 := by
  with_unfolding_all decide

/-- C2 (amended): `winsorize` at percentile `pct ∈ [0, 50]` is idempotent on
a non-empty sample list whenever the interpolation rank
`(pct / 100) * (len - 1)` is an integer, so that no strict interpolation
occurs (e.g. `pct = 0`, or `pct = 25` on five samples); for fractional
ranks the clamping bounds move strictly inward on the second pass and the
fixed point fails, as the counterexample shows. -/
theorem winsorize_idem_intRank :
    ∀ (s : List ℚ) (pct : ℚ) (k : ℕ), s ≠ [] → 0 ≤ pct → pct ≤ 50 →
      pct / 100 * ((s.length - 1 : ℕ) : ℚ) = (k : ℚ) →
      winsorize (winsorize s pct) pct = winsorize s pct := by
  intro s pct k hne h0 h50 hk
  have h100 : pct ≤ 100 := by linarith
  have hts : List.Sorted (· ≤ ·) (cppSort s) := sorted_cppSort s
  have hlen : (cppSort s).length = s.length := length_cppSort s
  have hlen0 : s.length ≠ 0 := fun hz => hne (List.length_eq_zero.mp hz)
  have htne : cppSort s ≠ [] := fun hz => hlen0 (by rw [← hlen, hz]; rfl)
  have hL1nn : (0 : ℚ) ≤ ((s.length - 1 : ℕ) : ℚ) := Nat.cast_nonneg _
  have hkle : k ≤ s.length - 1 := by
    have h2 : (k : ℚ) ≤ ((s.length - 1 : ℕ) : ℚ) := by
      rw [← hk]
      have hfr : pct / 100 ≤ 1 := by linarith
      nlinarith
    exact_mod_cast h2
  have hk50 : k ≤ s.length - 1 - k := by
    have h2 : (k : ℚ) + (k : ℚ) ≤ ((s.length - 1 : ℕ) : ℚ) := by
      rw [← hk]
      have hfr : pct / 100 ≤ 1 / 2 := by linarith
      nlinarith
    have h3 : k + k ≤ s.length - 1 := by exact_mod_cast h2
    omega
  have hk2 : (100 - pct) / 100 * ((s.length - 1 : ℕ) : ℚ) =
      ((s.length - 1 - k : ℕ) : ℚ) := by
    have hcast : ((s.length - 1 - k : ℕ) : ℚ) = ((s.length - 1 : ℕ) : ℚ) - (k : ℚ) :=
      Nat.cast_sub hkle
    rw [hcast, ← hk]
    ring
  have hlo : percentile_of_sorted (cppSort s) pct = (cppSort s).getD k 0 :=
    percentile_intRank htne h0 h100 (by rw [hlen]; exact hk)
  have hhi : percentile_of_sorted (cppSort s) (100 - pct) =
      (cppSort s).getD (s.length - 1 - k) 0 :=
    percentile_intRank htne (by linarith) (by linarith) (by rw [hlen]; exact hk2)
  have hlohi : percentile_of_sorted (cppSort s) pct ≤
      percentile_of_sorted (cppSort s) (100 - pct) := by
    rw [hlo, hhi]
    exact sorted_getD_le hts hk50 (by rw [hlen]; omega)
  have hw : winsorize s pct =
      (cppSort s).map (clampTo (percentile_of_sorted (cppSort s) pct)
        (percentile_of_sorted (cppSort s) (100 - pct))) := rfl
  have hwsorted : List.Sorted (· ≤ ·) (winsorize s pct) := by
    rw [hw]
    exact List.Pairwise.map _ (fun a b hab => clampTo_le_clampTo hlohi hab) hts
  have hwlen : (winsorize s pct).length = s.length := by
    rw [hw, List.length_map, hlen]
  have hwne : winsorize s pct ≠ [] := fun hz => hlen0 (by rw [← hwlen, hz]; rfl)
  have hsortw : cppSort (winsorize s pct) = winsorize s pct :=
    cppSort_eq_of_sorted hwsorted
  have hklt : k < (cppSort s).length := by rw [hlen]; omega
  have hkhlt : s.length - 1 - k < (cppSort s).length := by rw [hlen]; omega
  have hlo2 : percentile_of_sorted (winsorize s pct) pct =
      percentile_of_sorted (cppSort s) pct := by
    rw [percentile_intRank hwne h0 h100 (by rw [hwlen]; exact hk), hw,
      getD_map_lt _ hklt, ← hlo]
    exact clampTo_eq_self (le_refl _) hlohi
  have hhi2 : percentile_of_sorted (winsorize s pct) (100 - pct) =
      percentile_of_sorted (cppSort s) (100 - pct) := by
    rw [percentile_intRank hwne (by linarith) (by linarith)
        (by rw [hwlen]; exact hk2), hw,
      getD_map_lt _ hkhlt, ← hhi]
    exact clampTo_eq_self hlohi (le_refl _)
  have hfinal : winsorize (winsorize s pct) pct =
      (winsorize s pct).map (clampTo (percentile_of_sorted (cppSort s) pct)
        (percentile_of_sorted (cppSort s) (100 - pct))) := by
    show (cppSort (winsorize s pct)).map
        (clampTo (percentile_of_sorted (cppSort (winsorize s pct)) pct)
          (percentile_of_sorted (cppSort (winsorize s pct)) (100 - pct))) = _
    rw [hsortw, hlo2, hhi2]
  rw [hfinal]
  have hid : ∀ x ∈ winsorize s pct,
      clampTo (percentile_of_sorted (cppSort s) pct)
        (percentile_of_sorted (cppSort s) (100 - pct)) x = x := by
    intro x hx
    rw [hw] at hx
    obtain ⟨y, hy, rfl⟩ := List.mem_map.mp hx
    exact clampTo_eq_self (clampTo_mem hlohi).1 (clampTo_mem hlohi).2
  have hstep2 : (winsorize s pct).map
      (clampTo (percentile_of_sorted (cppSort s) pct)
        (percentile_of_sorted (cppSort s) (100 - pct))) =
      (winsorize s pct).map (fun x => x) := List.map_congr_left hid
  rw [hstep2]
  simp

/-- C2 witness: idempotence at an integral rank, applied concretely
(`pct = 25` on five samples; rank `1`). -/
theorem winsorize_idem_intRank_witness :
    winsorize (winsorize [1, 2, 3, 4, 5] 25) 25 = winsorize [1, 2, 3, 4, 5] 25 :=
  winsorize_idem_intRank [1, 2, 3, 4, 5] 25 1 (by decide) (by norm_num) (by norm_num)
    (by with_unfolding_all decide)
